import Mathlib

/-
Verification of the square-spiral coordinate generator `gen_square_spiral`
from `lib/issa.py` (Integer Sequence Spiral Art).

The generator is embedded over exact rationals `ℚ` (the Python code uses
floats; every claim under study is about the exact algebra of the walk, so
the standard exact-arithmetic embedding is used).  The boundary walk is a
step function on states `(current vertex, current direction)`; the vertex
list is the trace of that step function.  Scaling is embedded exactly:
linear scale values are rationals, and the multiplicative scale — whose
values are `r ** e` with `r = 0.01 ** (1/num_points)` — is embedded by its
(rational) exponent list `e = np.linspace(0, num_points, num_points)`,
with real-valued readings `r ^ e` (via `Real.rpow`) used in the theorems
about it.
-/

namespace Issa

/-- Direction token of the boundary walk: the four keys of the source's
`dir_map` and `new_dir_map` dictionaries (`'u'`, `'r'`, `'d'`, `'l'`). -/
inductive Dir
  | u
  | r
  | d
  | l
deriving DecidableEq

/-- A 2-D point, embedding the source's `np.array([x, y])` vertices. -/
abbrev Pt := ℚ × ℚ

/-- Loop state of the boundary walk: `(curr_vert, curr_dir)`. -/
abbrev SpState := Pt × Dir

/-- Embeds `dir_map = {'u': [0, spacing], 'd': [0, -spacing],
'l': [-spacing, 0], 'r': [spacing, 0]}`. -/
def dir_map (sp : ℚ) : Dir → Pt
  | .u => (0, sp)
  | .d => (0, -sp)
  | .l => (-sp, 0)
  | .r => (sp, 0)

/-- Embeds `new_dir_map = {'u':'r', 'r':'d', 'd':'l', 'l':'u'}`. -/
def new_dir_map : Dir → Dir
  | .u => .r
  | .r => .d
  | .d => .l
  | .l => .u

/-- Embeds `next_vert = curr_vert + dir_map[curr_dir]` (the tentative next
vertex before the bounds check). -/
def tentative (sp : ℚ) (st : SpState) : Pt :=
  (st.1.1 + (dir_map sp st.2).1, st.1.2 + (dir_map sp st.2).2)

/-- Embeds `in_bounds = (next_vert[0] >= bound_l) & (next_vert[0] <= bound_r) &
(next_vert[1] >= bound_b) & (next_vert[1] <= bound_t)`, i.e. membership in
the closed rectangle `[bound_l, bound_r] × [bound_b, bound_t]`. -/
def in_bounds (bl br bb bt : ℚ) (v : Pt) : Prop :=
  bl ≤ v.1 ∧ v.1 ≤ br ∧ bb ≤ v.2 ∧ v.2 ≤ bt

instance (bl br bb bt : ℚ) (v : Pt) : Decidable (in_bounds bl br bb bt v) :=
  inferInstanceAs (Decidable (_ ∧ _ ∧ _ ∧ _))

/-- Embeds the four clamping branches of the `if not in_bounds:` block,
keyed by the current direction:
`'u'`: `next[0] += next[1] - bound_t; next[1] = bound_t`;
`'r'`: `next[1] -= next[0] - bound_r; next[0] = bound_r`;
`'d'`: `next[0] -= bound_b - next[1]; next[1] = bound_b`;
`'l'`: `next[1] += bound_l - next[0]; next[0] = bound_l`. -/
def clampTurn (bt bb bl br : ℚ) : Dir → Pt → Pt
  | .u, v => (v.1 + (v.2 - bt), bt)
  | .r, v => (br, v.2 - (v.1 - br))
  | .d, v => (v.1 - (bb - v.2), bb)
  | .l, v => (bl, v.2 + (bl - v.1))

/-- One iteration of the `for i in range(num_points-1):` loop body of
`gen_square_spiral`: take the tentative step, accept it when in bounds,
otherwise clamp by the current direction and rotate the direction. -/
def spiralStep (bt bb bl br sp : ℚ) (st : SpState) : SpState :=
  if in_bounds bl br bb bt (tentative sp st) then (tentative sp st, st.2)
  else (clampTurn bt bb bl br st.2 (tentative sp st), new_dir_map st.2)

/-- Whether the loop body takes the `if not in_bounds:` branch at state
`st`, i.e. whether a corner turn occurs on this step. -/
def turnsAt (bt bb bl br sp : ℚ) (st : SpState) : Prop :=
  ¬ in_bounds bl br bb bt (tentative sp st)

instance (bt bb bl br sp : ℚ) (st : SpState) : Decidable (turnsAt bt bb bl br sp st) :=
  inferInstanceAs (Decidable (¬ _))

/-- Loop state after `k` iterations, starting — as in the source — from
`curr_vert = np.array([bound_l, bound_b])`, `curr_dir = 'u'` with the
bounding box `bound_t = height/2`, `bound_b = -height/2`,
`bound_l = -width/2`, `bound_r = width/2`. -/
def spiralState (h w sp : ℚ) (k : ℕ) : SpState :=
  (spiralStep (h/2) (-h/2) (-w/2) (w/2) sp)^[k] (((-w/2), (-h/2)), Dir.u)

/-- Vertex trace of `steps` further loop iterations from state `st`
(the head is `st`'s own vertex, matching `vert_list = [curr_vert]`
followed by one append per iteration). -/
def spiralVerts (bt bb bl br sp : ℚ) : ℕ → SpState → List Pt
  | 0, st => [st.1]
  | k + 1, st => st.1 :: spiralVerts bt bb bl br sp k (spiralStep bt bb bl br sp st)

/-- Embeds `vert_list` as produced by the boundary-walk loop of
`gen_square_spiral` (`num_points - 1` iterations appended after the
initial corner vertex). -/
def vert_list (h w sp : ℚ) (np : ℕ) : List Pt :=
  spiralVerts (h/2) (-h/2) (-w/2) (w/2) sp (np - 1) (((-w/2), (-h/2)), Dir.u)

/-- Embeds `np.linspace(a, b, num)` over exact rationals:
`num` evenly spaced samples from `a` to `b`, both endpoints included.
For `num = 1` the `ℚ` convention `x / 0 = 0` makes the formula yield
`[a]`, matching numpy. -/
def linspaceQ (a b : ℚ) (num : ℕ) : List ℚ :=
  (List.range num).map fun (i : ℕ) => a + (i : ℚ) * (b - a) / ((num : ℚ) - 1)

/-- Embeds `spacing = 2*(height+width)*num_spirals/num_points`
(the `equi_type == 'revolution'` branch). -/
def spacing (h w ns : ℚ) (np : ℕ) : ℚ := 2 * (h + w) * ns / np

/-- Embeds the exponent array of the multiplicative scale: the source
computes `scale = spiral_scale_step ** np.linspace(0, num_points,
num_points)` with `spiral_scale_step = 0.01 ** (1/num_points)`, so the
scale value at index `i` is `r ^ e i` where `e` is this rational list and
`r = 0.01 ^ (1/num_points)`. -/
def multScaleExps (np : ℕ) : List ℚ := linspaceQ 0 np np

/-- Python-level failure of a `gen_square_spiral` call: `notImplemented`
embeds `raise NotImplementedError`, and `nameError s` embeds the
`NameError` raised when the undefined name `s` is called (the source's
`raiseNotImplementedError(...)` typo calls an undefined name, so Python
raises `NameError` before any `NotImplementedError` is built). -/
inductive PyErr
  | notImplemented
  | nameError (missing : String)
deriving DecidableEq

/-- Embeds `x_vals = list(zip(*vert_list))[0] * scale`: the element-wise
product of the vertex x-components with the scale array (the two arrays
have equal length in every reachable call, so `zip` loses nothing). -/
def x_vals (verts : List Pt) (scale : List ℚ) : List ℚ :=
  (verts.zip scale).map fun p => p.1.1 * p.2

/-- Embeds `y_vals = list(zip(*vert_list))[1] * scale`. -/
def y_vals (verts : List Pt) (scale : List ℚ) : List ℚ :=
  (verts.zip scale).map fun p => p.1.2 * p.2

/-- Multiplicative-mode x output in exact form: entry `(c, e)` denotes the
real number `c * r ^ e` with `r = 0.01 ^ (1/num_points)`; this is the
element-wise product `list(zip(*vert_list))[0] * scale` with the scale
kept as exact exponents of `r`. -/
def x_vals_mult (verts : List Pt) (exps : List ℚ) : List (ℚ × ℚ) :=
  (verts.zip exps).map fun p => (p.1.1, p.2)

/-- Multiplicative-mode y output in exact form (see `x_vals_mult`). -/
def y_vals_mult (verts : List Pt) (exps : List ℚ) : List (ℚ × ℚ) :=
  (verts.zip exps).map fun p => (p.1.2, p.2)

/-- A returned coordinate sequence: plain rationals in linear mode, and
`(coefficient, exponent-of-r)` pairs in multiplicative mode. -/
inductive ScaledList
  | lin (vals : List ℚ)
  | mult (terms : List (ℚ × ℚ))
deriving DecidableEq

/-- Length of a returned coordinate sequence. -/
def ScaledList.length : ScaledList → ℕ
  | .lin vals => vals.length
  | .mult terms => terms.length

/-- Embeds the `equi_type` dispatch at the top of `gen_square_spiral`:
`'revolution'` yields the spacing, `'distant'` is
`raise NotImplementedError`, and any other value reaches the
`raiseNotImplementedError(...)` typo, which raises `NameError` for the
undefined name `raiseNotImplementedError`. -/
def spacingOf (h w ns : ℚ) (np : ℕ) (equi : String) : Except PyErr ℚ :=
  match equi with
  | "revolution" => .ok (spacing h w ns np)
  | "distant" => .error .notImplemented
  | _ => .error (.nameError "raiseNotImplementedError")

/-- Embeds `gen_square_spiral(height, width, num_points, num_spirals,
equi_type, spiral_type)`.  The result is `(x_vals, y_vals)` on success; a
raised Python exception is an `Except.error`.  The unrecognized
`spiral_type` branch, like the unrecognized `equi_type` branch, hits the
`raiseNotImplementedError(...)` typo and therefore raises `NameError`. -/
def gen_square_spiral (h w : ℚ) (np : ℕ) (ns : ℚ) (equi spiral : String) :
    Except PyErr (ScaledList × ScaledList) :=
  (spacingOf h w ns np equi).bind fun sp =>
    match spiral with
    | "linear" =>
        .ok (.lin (x_vals (vert_list h w sp np) (linspaceQ 1 0 np)),
             .lin (y_vals (vert_list h w sp np) (linspaceQ 1 0 np)))
    | "multiplicative" =>
        .ok (.mult (x_vals_mult (vert_list h w sp np) (multScaleExps np)),
             .mult (y_vals_mult (vert_list h w sp np) (multScaleExps np)))
    | _ => .error (.nameError "raiseNotImplementedError")

/-- The walk invariant relating the direction to the edge being tracked:
while moving up the walk is on the left edge, while moving right on the
top edge, while moving down on the right edge, while moving left on the
bottom edge. -/
def edgeAligned (bt bb bl br : ℚ) (st : SpState) : Prop :=
  match st.2 with
  | .u => st.1.1 = bl
  | .r => st.1.2 = bt
  | .d => st.1.1 = br
  | .l => st.1.2 = bb

/-- Full walk invariant: the current vertex is inside the box and the
state is edge-aligned. -/
def goodState (bt bb bl br : ℚ) (st : SpState) : Prop :=
  in_bounds bl br bb bt st.1 ∧ edgeAligned bt bb bl br st

/-- Manhattan (L1) distance between two points. -/
def l1Dist (a b : Pt) : ℚ := |b.1 - a.1| + |b.2 - a.2|

/-- Squared Euclidean distance between two points (for nonnegative `d`,
the Euclidean distance equals `d` iff the squared distance equals `d^2`). -/
def sqDist (a b : Pt) : ℚ := (b.1 - a.1) ^ 2 + (b.2 - a.2) ^ 2

/-! ### Helper lemmas about the walk and the lists -/

lemma spiralVerts_length (bt bb bl br sp : ℚ) (k : ℕ) (st : SpState) :
    (spiralVerts bt bb bl br sp k st).length = k + 1 := by
  induction k generalizing st with
  | zero => simp [spiralVerts]
  | succ k ih => simp [spiralVerts, ih]

lemma vert_list_length (h w sp : ℚ) (np : ℕ) (hnp : 1 ≤ np) :
    (vert_list h w sp np).length = np := by
  rw [vert_list, spiralVerts_length]
  omega

lemma spiralVerts_getD (bt bb bl br sp : ℚ) (k i : ℕ) (st : SpState) (hik : i ≤ k) (d : Pt) :
    (spiralVerts bt bb bl br sp k st).getD i d
      = ((spiralStep bt bb bl br sp)^[i] st).1 := by
  induction k generalizing i st with
  | zero =>
    have hi0 : i = 0 := Nat.le_zero.mp hik
    subst hi0
    simp [spiralVerts]
  | succ k ih =>
    cases i with
    | zero => simp [spiralVerts]
    | succ i =>
      rw [spiralVerts]
      simp only [List.getD_cons_succ]
      rw [ih i _ (Nat.succ_le_succ_iff.mp hik), Function.iterate_succ_apply]

lemma vert_list_getD (h w sp : ℚ) (np i : ℕ) (hi : i < np) (d : Pt) :
    (vert_list h w sp np).getD i d = (spiralState h w sp i).1 := by
  rw [vert_list, spiralState, spiralVerts_getD]
  omega

lemma linspaceQ_length (a b : ℚ) (num : ℕ) : (linspaceQ a b num).length = num := by
  rw [linspaceQ, List.length_map, List.length_range]

lemma linspaceQ_getD (a b : ℚ) (num i : ℕ) (hi : i < num) :
    (linspaceQ a b num).getD i 0 = a + (i : ℚ) * (b - a) / ((num : ℚ) - 1) := by
  rw [linspaceQ, List.getD_eq_getElem _ _ (by rw [List.length_map, List.length_range]; omega),
      List.getElem_map, List.getElem_range]

lemma x_vals_getD (verts : List Pt) (scale : List ℚ) (i : ℕ)
    (h1 : i < verts.length) (h2 : i < scale.length) :
    (x_vals verts scale).getD i 0 = (verts.getD i (0, 0)).1 * scale.getD i 0 := by
  rw [x_vals, List.getD_eq_getElem _ _ (by rw [List.length_map, List.length_zip]; omega),
      List.getElem_map, List.getElem_zip,
      List.getD_eq_getElem _ _ h1, List.getD_eq_getElem _ _ h2]

lemma y_vals_getD (verts : List Pt) (scale : List ℚ) (i : ℕ)
    (h1 : i < verts.length) (h2 : i < scale.length) :
    (y_vals verts scale).getD i 0 = (verts.getD i (0, 0)).2 * scale.getD i 0 := by
  rw [y_vals, List.getD_eq_getElem _ _ (by rw [List.length_map, List.length_zip]; omega),
      List.getElem_map, List.getElem_zip,
      List.getD_eq_getElem _ _ h1, List.getD_eq_getElem _ _ h2]

/-! ### The walk invariant -/

/-- One step of the loop preserves the walk invariant, provided the
spacing is positive and no larger than either side of the rectangle. -/
lemma goodState_step (bt bb bl br sp : ℚ) (hsp : 0 < sp)
    (hwd : sp ≤ br - bl) (hht : sp ≤ bt - bb) {st : SpState}
    (hst : goodState bt bb bl br st) :
    goodState bt bb bl br (spiralStep bt bb bl br sp st) := by
  obtain ⟨⟨x, y⟩, dir⟩ := st
  obtain ⟨hin, ha⟩ := hst
  obtain ⟨h1, h2, h3, h4⟩ : bl ≤ x ∧ x ≤ br ∧ bb ≤ y ∧ y ≤ bt := hin
  cases dir with
  | u =>
    simp only [edgeAligned] at ha
    rw [spiralStep]
    simp only [tentative, dir_map, add_zero]
    split_ifs with hb
    · exact ⟨hb, by simpa [edgeAligned] using ha⟩
    · have hy : bt < y + sp := by
        by_contra hc
        push_neg at hc
        exact hb ⟨show bl ≤ x by linarith, show x ≤ br by linarith,
          show bb ≤ y + sp by linarith, hc⟩
      refine ⟨⟨?_, ?_, ?_, ?_⟩, ?_⟩ <;>
        simp [clampTurn, new_dir_map, edgeAligned] <;> linarith
  | r =>
    simp only [edgeAligned] at ha
    rw [spiralStep]
    simp only [tentative, dir_map, add_zero]
    split_ifs with hb
    · exact ⟨hb, by simpa [edgeAligned] using ha⟩
    · have hx : br < x + sp := by
        by_contra hc
        push_neg at hc
        exact hb ⟨show bl ≤ x + sp by linarith, hc,
          show bb ≤ y by linarith, show y ≤ bt by linarith⟩
      refine ⟨⟨?_, ?_, ?_, ?_⟩, ?_⟩ <;>
        simp [clampTurn, new_dir_map, edgeAligned] <;> linarith
  | d =>
    simp only [edgeAligned] at ha
    rw [spiralStep]
    simp only [tentative, dir_map, add_zero, ← sub_eq_add_neg]
    split_ifs with hb
    · exact ⟨hb, by simpa [edgeAligned] using ha⟩
    · have hy : y - sp < bb := by
        by_contra hc
        push_neg at hc
        exact hb ⟨show bl ≤ x by linarith, show x ≤ br by linarith, hc,
          show y - sp ≤ bt by linarith⟩
      refine ⟨⟨?_, ?_, ?_, ?_⟩, ?_⟩ <;>
        simp [clampTurn, new_dir_map, edgeAligned] <;> linarith
  | l =>
    simp only [edgeAligned] at ha
    rw [spiralStep]
    simp only [tentative, dir_map, add_zero, ← sub_eq_add_neg]
    split_ifs with hb
    · exact ⟨hb, by simpa [edgeAligned] using ha⟩
    · have hx : x - sp < bl := by
        by_contra hc
        push_neg at hc
        exact hb ⟨hc, show x - sp ≤ br by linarith,
          show bb ≤ y by linarith, show y ≤ bt by linarith⟩
      refine ⟨⟨?_, ?_, ?_, ?_⟩, ?_⟩ <;>
        simp [clampTurn, new_dir_map, edgeAligned] <;> linarith

lemma goodState_iterate (bt bb bl br sp : ℚ) (hsp : 0 < sp)
    (hwd : sp ≤ br - bl) (hht : sp ≤ bt - bb) {st : SpState}
    (hst : goodState bt bb bl br st) (k : ℕ) :
    goodState bt bb bl br ((spiralStep bt bb bl br sp)^[k] st) := by
  induction k with
  | zero => simpa using hst
  | succ k ih =>
    rw [Function.iterate_succ_apply']
    exact goodState_step bt bb bl br sp hsp hwd hht ih

lemma spiralVerts_in_box (bt bb bl br sp : ℚ) (hsp : 0 < sp)
    (hwd : sp ≤ br - bl) (hht : sp ≤ bt - bb) (k : ℕ) :
    ∀ st : SpState, goodState bt bb bl br st →
      ∀ v ∈ spiralVerts bt bb bl br sp k st, in_bounds bl br bb bt v := by
  induction k with
  | zero =>
    intro st hst v hv
    rw [spiralVerts] at hv
    simp only [List.mem_singleton] at hv
    subst hv
    exact hst.1
  | succ k ih =>
    intro st hst v hv
    rw [spiralVerts] at hv
    simp only [List.mem_cons] at hv
    rcases hv with rfl | hv
    · exact hst.1
    · exact ih _ (goodState_step bt bb bl br sp hsp hwd hht hst) v hv

/-- The initial state of the walk satisfies the invariant. -/
lemma goodState_init (h w : ℚ) (hh : 0 < h) (hw : 0 < w) :
    goodState (h/2) (-h/2) (-w/2) (w/2) (((-w/2), (-h/2)), Dir.u) := by
  refine ⟨⟨le_refl _, by linarith, le_refl _, by linarith⟩, ?_⟩
  simp [edgeAligned]

/-- At a corner turn from an invariant-satisfying state, the Manhattan
distance from the previous vertex to the clamped vertex is exactly the
spacing. -/
lemma turn_l1_step (bt bb bl br sp : ℚ) (hsp : 0 < sp) {st : SpState}
    (hst : goodState bt bb bl br st)
    (hturn : turnsAt bt bb bl br sp st) :
    l1Dist st.1 (spiralStep bt bb bl br sp st).1 = sp := by
  obtain ⟨⟨x, y⟩, dir⟩ := st
  obtain ⟨hin, ha⟩ := hst
  obtain ⟨h1, h2, h3, h4⟩ : bl ≤ x ∧ x ≤ br ∧ bb ≤ y ∧ y ≤ bt := hin
  rw [turnsAt] at hturn
  rw [spiralStep, if_neg hturn]
  cases dir with
  | u =>
    simp only [edgeAligned] at ha
    simp only [tentative, dir_map, add_zero] at hturn ⊢
    have hy : bt < y + sp := by
      by_contra hc
      push_neg at hc
      exact hturn ⟨show bl ≤ x by linarith, show x ≤ br by linarith,
        show bb ≤ y + sp by linarith, hc⟩
    simp only [l1Dist, clampTurn]
    rw [show x + (y + sp - bt) - x = y + sp - bt from by ring,
        abs_of_pos (show (0:ℚ) < y + sp - bt from by linarith),
        abs_of_nonneg (show (0:ℚ) ≤ bt - y from by linarith)]
    ring
  | r =>
    simp only [edgeAligned] at ha
    simp only [tentative, dir_map, add_zero] at hturn ⊢
    have hx : br < x + sp := by
      by_contra hc
      push_neg at hc
      exact hturn ⟨show bl ≤ x + sp by linarith, hc,
        show bb ≤ y by linarith, show y ≤ bt by linarith⟩
    simp only [l1Dist, clampTurn]
    rw [show y - (x + sp - br) - y = -(x + sp - br) from by ring, abs_neg,
        abs_of_pos (show (0:ℚ) < x + sp - br from by linarith),
        abs_of_nonneg (show (0:ℚ) ≤ br - x from by linarith)]
    ring
  | d =>
    simp only [edgeAligned] at ha
    simp only [tentative, dir_map, add_zero, ← sub_eq_add_neg] at hturn ⊢
    have hy : y - sp < bb := by
      by_contra hc
      push_neg at hc
      exact hturn ⟨show bl ≤ x by linarith, show x ≤ br by linarith, hc,
        show y - sp ≤ bt by linarith⟩
    simp only [l1Dist, clampTurn]
    rw [show x - (bb - (y - sp)) - x = -(bb - (y - sp)) from by ring, abs_neg,
        abs_of_pos (show (0:ℚ) < bb - (y - sp) from by linarith),
        abs_of_nonpos (show bb - y ≤ (0:ℚ) from by linarith)]
    ring
  | l =>
    simp only [edgeAligned] at ha
    simp only [tentative, dir_map, add_zero, ← sub_eq_add_neg] at hturn ⊢
    have hx : x - sp < bl := by
      by_contra hc
      push_neg at hc
      exact hturn ⟨hc, show x - sp ≤ br by linarith,
        show bb ≤ y by linarith, show y ≤ bt by linarith⟩
    simp only [l1Dist, clampTurn]
    rw [show y + (bl - (x - sp)) - y = bl - (x - sp) from by ring,
        abs_of_pos (show (0:ℚ) < bl - (x - sp) from by linarith),
        abs_of_nonpos (show bl - x ≤ (0:ℚ) from by linarith)]
    ring

/-- A step that takes the in-bounds branch moves by exactly the spacing
along one axis, so its squared Euclidean length is the spacing squared. -/
lemma no_turn_sqDist_step (bt bb bl br sp : ℚ) {st : SpState}
    (hn : ¬ turnsAt bt bb bl br sp st) :
    sqDist st.1 (spiralStep bt bb bl br sp st).1 = sp ^ 2 := by
  rw [turnsAt, not_not] at hn
  rw [spiralStep, if_pos hn]
  obtain ⟨⟨x, y⟩, dir⟩ := st
  cases dir <;> simp [sqDist, tentative, dir_map]

/-- Positivity of the revolution spacing for valid inputs. -/
lemma spacing_pos (h w ns : ℚ) (np : ℕ) (hh : 0 < h) (hw : 0 < w)
    (hns : 0 < ns) (hnp : 0 < np) :
    0 < spacing h w ns np := by
  rw [spacing]
  have : (0:ℚ) < (np : ℚ) := by exact_mod_cast hnp
  positivity

/-! ### Claim theorems -/

/-- C7: calling `gen_square_spiral` with `equi_type='distant'` raises a
not-implemented failure (`raise NotImplementedError`) for every valid
`height`, `width`, `num_points`, `num_spirals` and any `spiral_type`,
with no partial vertex list returned (the error is the whole result). -/
theorem distant_not_implemented (h w ns : ℚ) (np : ℕ) (spiral : String)
    (hh : 0 < h) (hw : 0 < w) (hnp : 2 ≤ np) (hns : 0 < ns) :
    gen_square_spiral h w np ns "distant" spiral = .error .notImplemented := rfl

theorem distant_not_implemented_wit :
    (0 : ℚ) < 10 ∧ 2 ≤ 5 ∧
    gen_square_spiral 10 10 5 1 "distant" "linear" = .error .notImplemented :=
  ⟨by norm_num, by norm_num,
    distant_not_implemented 10 10 1 5 "linear" (by norm_num) (by norm_num)
      (by norm_num) (by norm_num)⟩

/-- C6: calling `gen_square_spiral` with an unrecognized `spiral_type` such
as `'quadratic'` does abort with no output, but not with a "not
implemented" configuration error naming the invalid value and the allowed
set: the `raiseNotImplementedError(f"...")` line calls an undefined name,
so Python raises `NameError: name 'raiseNotImplementedError' is not
defined` and the intended message is never produced.  This theorem
evaluates the code at the failing input. -/
theorem quadratic_spiral_type_name_error :
    gen_square_spiral 10 10 5 1 "revolution" "quadratic"
      = .error (.nameError "raiseNotImplementedError") := rfl

/-- C5: for every valid invocation (`equi_type='revolution'`,
`spiral_type` in `{linear, multiplicative}`, `num_points ≥ 2`),
`gen_square_spiral` returns two index-aligned coordinate sequences, each
of length exactly `num_points`. -/
theorem output_lengths (h w ns : ℚ) (np : ℕ) (spiral : String) (hnp : 2 ≤ np)
    (hs : spiral = "linear" ∨ spiral = "multiplicative") :
    ∃ xs ys : ScaledList,
      gen_square_spiral h w np ns "revolution" spiral = .ok (xs, ys) ∧
      xs.length = np ∧ ys.length = np := by
  have hv : (vert_list h w (spacing h w ns np) np).length = np :=
    vert_list_length _ _ _ _ (by omega)
  rcases hs with rfl | rfl
  · exact ⟨_, _, rfl,
      by simp [ScaledList.length, x_vals, List.length_zip, hv, linspaceQ_length],
      by simp [ScaledList.length, y_vals, List.length_zip, hv, linspaceQ_length]⟩
  · exact ⟨_, _, rfl,
      by simp [ScaledList.length, x_vals_mult, List.length_zip, hv, multScaleExps,
        linspaceQ_length],
      by simp [ScaledList.length, y_vals_mult, List.length_zip, hv, multScaleExps,
        linspaceQ_length]⟩

theorem output_lengths_wit :
    2 ≤ 5 ∧
    ∃ xs ys : ScaledList,
      gen_square_spiral 10 10 5 1 "revolution" "linear" = .ok (xs, ys) ∧
      xs.length = 5 ∧ ys.length = 5 :=
  ⟨by norm_num, output_lengths 10 10 1 5 "linear" (by norm_num) (Or.inl rfl)⟩

/-- C4: for `spiral_type='linear'` the scale sequence is the evenly spaced
descending sequence from 1 to 0 inclusive over `num_points` samples
(`scale[i] = 1 - i/(num_points-1)`); in particular
`scale[num_points-1] = 0`, so the final output coordinate is `(0, 0)`. -/
theorem linear_scale_spec (h w ns : ℚ) (np : ℕ) (hnp : 2 ≤ np) :
    (∀ i, i < np → (linspaceQ 1 0 np).getD i 0 = 1 - (i : ℚ) / ((np : ℚ) - 1)) ∧
    (linspaceQ 1 0 np).getD (np - 1) 0 = 0 ∧
    (x_vals (vert_list h w (spacing h w ns np) np) (linspaceQ 1 0 np)).getD (np - 1) 0 = 0 ∧
    (y_vals (vert_list h w (spacing h w ns np) np) (linspaceQ 1 0 np)).getD (np - 1) 0 = 0 := by
  have h2 : (2 : ℚ) ≤ (np : ℚ) := by exact_mod_cast hnp
  have hne : ((np : ℚ) - 1) ≠ 0 := by
    intro hc
    have : (np : ℚ) = 1 := by linarith
    linarith
  have hformula : ∀ i, i < np →
      (linspaceQ 1 0 np).getD i 0 = 1 - (i : ℚ) / ((np : ℚ) - 1) := by
    intro i hi
    rw [linspaceQ_getD 1 0 np i hi]
    ring
  have hlast : (linspaceQ 1 0 np).getD (np - 1) 0 = 0 := by
    rw [hformula (np - 1) (by omega), Nat.cast_sub (by omega : 1 ≤ np),
        Nat.cast_one, div_self hne]
    ring
  have hvl : (vert_list h w (spacing h w ns np) np).length = np :=
    vert_list_length _ _ _ _ (by omega)
  refine ⟨hformula, hlast, ?_, ?_⟩
  · rw [x_vals_getD _ _ _ (by rw [hvl]; omega) (by rw [linspaceQ_length]; omega),
      hlast, mul_zero]
  · rw [y_vals_getD _ _ _ (by rw [hvl]; omega) (by rw [linspaceQ_length]; omega),
      hlast, mul_zero]

theorem linear_scale_spec_wit :
    2 ≤ 5 ∧
    ((∀ i, i < 5 → (linspaceQ 1 0 5).getD i 0 = 1 - (i : ℚ) / ((5 : ℕ) - 1 : ℚ)) ∧
     (linspaceQ 1 0 5).getD (5 - 1) 0 = 0 ∧
     (x_vals (vert_list 10 10 (spacing 10 10 1 5) 5) (linspaceQ 1 0 5)).getD (5 - 1) 0 = 0 ∧
     (y_vals (vert_list 10 10 (spacing 10 10 1 5) 5) (linspaceQ 1 0 5)).getD (5 - 1) 0 = 0) := by
  have hth := linear_scale_spec 10 10 1 5 (by norm_num)
  exact ⟨by norm_num, by exact_mod_cast hth⟩

/-- C9: the concrete scenario `height=10, width=10, num_points=5,
num_spirals=1, equi_type='revolution', spiral_type='linear'`:
`spacing = 2*20*1/5 = 8`, the first raw vertex is `(-5,-5)`, the scale
sequence is `[1, 0.75, 0.5, 0.25, 0]`, and the returned coordinate lists
end with the final coordinate `(0, 0)`. -/
theorem concrete_scenario_linear :
    spacing 10 10 1 5 = 8 ∧
    (vert_list 10 10 (spacing 10 10 1 5) 5).getD 0 (0, 0) = (-5, -5) ∧
    linspaceQ 1 0 5 = [1, 3/4, 1/2, 1/4, 0] ∧
    gen_square_spiral 10 10 5 1 "revolution" "linear"
      = .ok (.lin [-5, -15/4, 1/2, 5/4, 0], .lin [-5, 9/4, 5/2, 1/4, 0]) := by
  have hsp : spacing 10 10 1 5 = 8 := by norm_num [spacing]
  have hverts : vert_list 10 10 (spacing 10 10 1 5) 5
      = [(-5, -5), (-5, 3), (1, 5), (5, 1), (3, -5)] := by
    rw [hsp]
    norm_num [vert_list, spiralVerts, spiralStep, tentative, dir_map, in_bounds,
      clampTurn, new_dir_map]
  have hscale : linspaceQ 1 0 5 = [1, 3/4, 1/2, 1/4, 0] := by
    norm_num [linspaceQ, List.range_succ]
  have hgen : gen_square_spiral 10 10 5 1 "revolution" "linear"
      = .ok (.lin (x_vals (vert_list 10 10 (spacing 10 10 1 5) 5) (linspaceQ 1 0 5)),
             .lin (y_vals (vert_list 10 10 (spacing 10 10 1 5) 5) (linspaceQ 1 0 5))) := rfl
  refine ⟨hsp, by rw [hverts]; norm_num, hscale, ?_⟩
  rw [hgen, hverts, hscale]
  norm_num [x_vals, y_vals, List.zip_cons_cons]

/-- C1 counterexample: with `height=10, width=10, num_points=2,
num_spirals=10` (all valid per the claim) the spacing is `200`, and the
second raw vertex produced by the walk is `(185, 5)`, far outside the
rectangle `[-5, 5] × [-5, 5]`: the claim as stated is false. -/
theorem vertex_out_of_box_cex :
    (vert_list 10 10 (spacing 10 10 10 2) 2).getD 1 (0, 0) = (185, 5) ∧
    ¬ in_bounds (-10/2 : ℚ) (10/2) (-10/2) (10/2)
        ((vert_list 10 10 (spacing 10 10 10 2) 2).getD 1 (0, 0)) := by
  have he : (vert_list 10 10 (spacing 10 10 10 2) 2).getD 1 (0, 0) = (185, 5) := by
    norm_num [vert_list, spiralVerts, spiralStep, tentative, dir_map, in_bounds,
      clampTurn, new_dir_map, spacing]
  refine ⟨he, ?_⟩
  rw [he]
  norm_num [in_bounds]

/-- C1 (amended): every raw vertex produced by the boundary walk lies in
the closed rectangle `[-width/2, width/2] × [-height/2, height/2]`,
provided additionally that the spacing `2*(height+width)*num_spirals /
num_points` is at most `min(height, width)`; without that bound the
corner redirection can overshoot past the adjacent edge (see
`vertex_out_of_box_cex`). -/
theorem vertices_in_box (h w ns : ℚ) (np : ℕ) (hh : 0 < h) (hw : 0 < w)
    (hnp : 2 ≤ np) (hns : 0 < ns)
    (hsh : spacing h w ns np ≤ h) (hsw : spacing h w ns np ≤ w) :
    ∀ v ∈ vert_list h w (spacing h w ns np) np,
      in_bounds (-w/2) (w/2) (-h/2) (h/2) v := by
  have hsp : 0 < spacing h w ns np := spacing_pos h w ns np hh hw hns (by omega)
  exact spiralVerts_in_box (h/2) (-h/2) (-w/2) (w/2) _ hsp (by linarith) (by linarith)
    _ _ (goodState_init h w hh hw)

theorem vertices_in_box_wit :
    spacing 10 10 1 5 ≤ 10 ∧
    in_bounds (-10/2 : ℚ) (10/2) (-10/2) (10/2)
      ((vert_list 10 10 (spacing 10 10 1 5) 5).getD 2 (0, 0)) := by
  have hsp : spacing 10 10 1 5 ≤ 10 := by norm_num [spacing]
  have hlen : 2 < (vert_list 10 10 (spacing 10 10 1 5) 5).length := by
    rw [vert_list_length _ _ _ _ (by norm_num)]
    norm_num
  refine ⟨hsp, ?_⟩
  rw [List.getD_eq_getElem _ _ hlen]
  exact vertices_in_box 10 10 1 5 (by norm_num) (by norm_num) (by norm_num)
    (by norm_num) hsp hsp _ (List.getElem_mem hlen)

/-- C2 counterexample: for `num_points = 2` the code's multiplicative
scale at index `1` is `r ^ 2` (the exponent list is
`np.linspace(0, 2, 2) = [0, 2]`), not `r ^ 1` as the claim's formula
`scale[i] = r^i` requires; since `0 < r < 1`, `r ^ 2 < r ^ 1`. -/
theorem mult_scale_not_pow_index_cex :
    ¬ (((0.01 : ℝ) ^ ((1 : ℝ) / (2 : ℝ))) ^ (((multScaleExps 2).getD 1 0 : ℚ) : ℝ)
        = ((0.01 : ℝ) ^ ((1 : ℝ) / (2 : ℝ))) ^ ((1 : ℝ))) := by
  have he : (multScaleExps 2).getD 1 0 = 2 := by
    norm_num [multScaleExps, linspaceQ, List.range_succ]
  rw [he]
  have h0 : (0 : ℝ) < (0.01 : ℝ) ^ ((1 : ℝ) / 2) :=
    Real.rpow_pos_of_pos (by norm_num) _
  have h1 : (0.01 : ℝ) ^ ((1 : ℝ) / 2) < 1 :=
    Real.rpow_lt_one (by norm_num) (by norm_num) (by norm_num)
  have hlt : ((0.01 : ℝ) ^ ((1 : ℝ) / 2)) ^ ((2 : ℝ))
      < ((0.01 : ℝ) ^ ((1 : ℝ) / 2)) ^ ((1 : ℝ)) :=
    Real.rpow_lt_rpow_of_exponent_gt h0 h1 (by norm_num)
  intro hcon
  push_cast at hcon
  exact absurd hcon (ne_of_lt hlt)

/-- C2 (amended): for `spiral_type='multiplicative'` the scale at sample
`i` (0-indexed) is `r ^ (i*num_points/(num_points-1))` with
`r = 0.01^(1/num_points)` — the exponent list is
`np.linspace(0, num_points, num_points)`, whose `i`-th entry is
`i*num_points/(num_points-1)`, not `i` — so the sequence still starts at
`1` and ends at exactly `r ^ num_points = 0.01`. -/
theorem mult_scale_exps_closed_form (np i : ℕ) (hnp : 2 ≤ np) (hi : i < np) :
    (multScaleExps np).getD i 0 = (i : ℚ) * (np : ℚ) / ((np : ℚ) - 1) ∧
    ((0.01 : ℝ) ^ ((1 : ℝ) / (np : ℝ))) ^ (((multScaleExps np).getD i 0 : ℚ) : ℝ)
      = ((0.01 : ℝ) ^ ((1 : ℝ) / (np : ℝ))) ^ ((i : ℝ) * (np : ℝ) / ((np : ℝ) - 1)) := by
  have h1 : (multScaleExps np).getD i 0 = (i : ℚ) * (np : ℚ) / ((np : ℚ) - 1) := by
    rw [multScaleExps, linspaceQ_getD 0 (np : ℚ) np i hi]
    ring
  refine ⟨h1, ?_⟩
  rw [h1]
  congr 1
  push_cast
  ring

theorem mult_scale_exps_closed_form_wit :
    2 ≤ 5 ∧
    ((multScaleExps 5).getD 2 0 = (2 : ℚ) * (5 : ℚ) / ((5 : ℚ) - 1) ∧
     ((0.01 : ℝ) ^ ((1 : ℝ) / (5 : ℝ))) ^ (((multScaleExps 5).getD 2 0 : ℚ) : ℝ)
       = ((0.01 : ℝ) ^ ((1 : ℝ) / (5 : ℝ))) ^ ((2 : ℝ) * (5 : ℝ) / ((5 : ℝ) - 1))) := by
  have hth := mult_scale_exps_closed_form 5 2 (by norm_num) (by norm_num)
  refine ⟨by norm_num, ?_⟩
  exact_mod_cast hth

/-- C3 counterexample: in the concrete valid walk `height=10, width=10,
num_points=5, num_spirals=1` (spacing `8`), the step from the second to
the third vertex is a corner turn from `(-5, 3)` to `(1, 5)`; its squared
Euclidean length is `40 ≠ 64 = spacing²`, so the Euclidean step length is
not `spacing` at every step: the claim as stated is false. -/
theorem euclid_turn_cex :
    turnsAt (10/2 : ℚ) (-10/2) (-10/2) (10/2) (spacing 10 10 1 5)
        (spiralState 10 10 (spacing 10 10 1 5) 1) ∧
    sqDist ((vert_list 10 10 (spacing 10 10 1 5) 5).getD 1 (0, 0))
        ((vert_list 10 10 (spacing 10 10 1 5) 5).getD 2 (0, 0))
      ≠ (spacing 10 10 1 5) ^ 2 := by
  constructor
  · norm_num [turnsAt, in_bounds, spiralState, Function.iterate_succ_apply',
      spiralStep, tentative, dir_map, clampTurn, new_dir_map, spacing]
  · norm_num [sqDist, vert_list, spiralVerts, spiralStep, tentative, dir_map,
      in_bounds, clampTurn, new_dir_map, spacing]

/-- C3 (amended): the Euclidean distance between consecutive raw vertices
equals the spacing (stated via squares: `sqDist = spacing²`) at every step
of the walk that does not turn a corner; steps that do turn a corner need
not have Euclidean length equal to the spacing (see `euclid_turn_cex`). -/
theorem euclid_step_spacing_of_no_turn (h w ns : ℚ) (np k : ℕ) (hk : k + 1 < np)
    (hnoturn : ¬ turnsAt (h/2) (-h/2) (-w/2) (w/2) (spacing h w ns np)
        (spiralState h w (spacing h w ns np) k)) :
    sqDist ((vert_list h w (spacing h w ns np) np).getD k (0, 0))
        ((vert_list h w (spacing h w ns np) np).getD (k + 1) (0, 0))
      = (spacing h w ns np) ^ 2 := by
  rw [vert_list_getD _ _ _ _ _ (by omega) _, vert_list_getD _ _ _ _ _ (by omega) _,
      spiralState, spiralState, Function.iterate_succ_apply']
  exact no_turn_sqDist_step _ _ _ _ _ hnoturn

theorem euclid_step_spacing_of_no_turn_wit :
    (0 + 1 < 5) ∧
    ¬ turnsAt (10/2 : ℚ) (-10/2) (-10/2) (10/2) (spacing 10 10 1 5)
        (spiralState 10 10 (spacing 10 10 1 5) 0) ∧
    sqDist ((vert_list 10 10 (spacing 10 10 1 5) 5).getD 0 (0, 0))
        ((vert_list 10 10 (spacing 10 10 1 5) 5).getD 1 (0, 0))
      = (spacing 10 10 1 5) ^ 2 := by
  have hn : ¬ turnsAt (10/2 : ℚ) (-10/2) (-10/2) (10/2) (spacing 10 10 1 5)
      (spiralState 10 10 (spacing 10 10 1 5) 0) := by
    norm_num [turnsAt, in_bounds, spiralState, spiralStep, tentative, dir_map,
      clampTurn, new_dir_map, spacing]
  exact ⟨by norm_num, hn, euclid_step_spacing_of_no_turn 10 10 1 5 0 (by norm_num) hn⟩

/-- C8 counterexample: with `height=10, width=10, num_points=3,
num_spirals=10` (valid per the claim) the spacing is `400/3`; the step
from the second to the third vertex is a corner turn, but its Manhattan
length is `360 ≠ 400/3`: with spacing larger than the rectangle sides, a
turned vertex leaves the rectangle and the next turn gains path length,
so the claim as stated is false. -/
theorem turn_l1_cex :
    turnsAt (10/2 : ℚ) (-10/2) (-10/2) (10/2) (spacing 10 10 10 3)
        (spiralState 10 10 (spacing 10 10 10 3) 1) ∧
    l1Dist ((vert_list 10 10 (spacing 10 10 10 3) 3).getD 1 (0, 0))
        ((vert_list 10 10 (spacing 10 10 10 3) 3).getD 2 (0, 0))
      ≠ spacing 10 10 10 3 := by
  have h1 : (vert_list 10 10 (spacing 10 10 10 3) 3).getD 1 (0, 0) = (355/3, 5) := by
    norm_num [vert_list, spiralVerts, spiralStep, tentative, dir_map, in_bounds,
      clampTurn, new_dir_map, spacing]
  have h2 : (vert_list 10 10 (spacing 10 10 10 3) 3).getD 2 (0, 0) = (5, -725/3) := by
    norm_num [vert_list, spiralVerts, spiralStep, tentative, dir_map, in_bounds,
      clampTurn, new_dir_map, spacing]
  constructor
  · norm_num [turnsAt, in_bounds, spiralState, Function.iterate_succ_apply',
      spiralStep, tentative, dir_map, clampTurn, new_dir_map, spacing]
  · rw [h1, h2]
    show |(5 : ℚ) - 355/3| + |(-725/3 : ℚ) - 5| ≠ spacing 10 10 10 3
    rw [show (5 : ℚ) - 355/3 = -(340/3) by norm_num,
        show (-725/3 : ℚ) - 5 = -(740/3) by norm_num, abs_neg, abs_neg,
        abs_of_nonneg (by norm_num : (0:ℚ) ≤ 340/3),
        abs_of_nonneg (by norm_num : (0:ℚ) ≤ 740/3)]
    norm_num [spacing]

/-- C8 (amended): at every corner turn of the walk, the Manhattan (L1)
distance between the previous raw vertex and the turned raw vertex equals
the spacing — the overshoot beyond the bound ahead is redirected along
the new axis, so no path length is gained or lost — provided additionally
that the spacing is at most `min(height, width)` (see `turn_l1_cex` for
why that bound is needed). -/
theorem turn_l1_eq_spacing (h w ns : ℚ) (np k : ℕ) (hh : 0 < h) (hw : 0 < w)
    (hnp : 2 ≤ np) (hns : 0 < ns)
    (hsh : spacing h w ns np ≤ h) (hsw : spacing h w ns np ≤ w)
    (hk : k + 1 < np)
    (hturn : turnsAt (h/2) (-h/2) (-w/2) (w/2) (spacing h w ns np)
        (spiralState h w (spacing h w ns np) k)) :
    l1Dist ((vert_list h w (spacing h w ns np) np).getD k (0, 0))
        ((vert_list h w (spacing h w ns np) np).getD (k + 1) (0, 0))
      = spacing h w ns np := by
  have hsp : 0 < spacing h w ns np := spacing_pos h w ns np hh hw hns (by omega)
  have hst : goodState (h/2) (-h/2) (-w/2) (w/2) (spiralState h w (spacing h w ns np) k) :=
    goodState_iterate _ _ _ _ _ hsp (by linarith) (by linarith)
      (goodState_init h w hh hw) k
  rw [vert_list_getD _ _ _ _ _ (by omega) _, vert_list_getD _ _ _ _ _ (by omega) _,
      spiralState, spiralState, Function.iterate_succ_apply']
  exact turn_l1_step _ _ _ _ _ hsp hst hturn

theorem turn_l1_eq_spacing_wit :
    spacing 10 10 1 5 ≤ 10 ∧
    turnsAt (10/2 : ℚ) (-10/2) (-10/2) (10/2) (spacing 10 10 1 5)
        (spiralState 10 10 (spacing 10 10 1 5) 1) ∧
    l1Dist ((vert_list 10 10 (spacing 10 10 1 5) 5).getD 1 (0, 0))
        ((vert_list 10 10 (spacing 10 10 1 5) 5).getD 2 (0, 0))
      = spacing 10 10 1 5 := by
  have hsp : spacing 10 10 1 5 ≤ 10 := by norm_num [spacing]
  have ht : turnsAt (10/2 : ℚ) (-10/2) (-10/2) (10/2) (spacing 10 10 1 5)
      (spiralState 10 10 (spacing 10 10 1 5) 1) := by
    norm_num [turnsAt, in_bounds, spiralState, Function.iterate_succ_apply',
      spiralStep, tentative, dir_map, clampTurn, new_dir_map, spacing]
  exact ⟨hsp, ht, turn_l1_eq_spacing 10 10 1 5 1 (by norm_num) (by norm_num)
    (by norm_num) (by norm_num) hsp hsp (by norm_num) ht⟩

/-- C10: at every step from every state, the direction token is one of
the four cycle members `u, r, d, l`; the step rotates it at most one
position (unchanged on an in-bounds step, `new_dir_map` on a turn); and
the clamping branch is selected by the current travel direction alone —
whenever a turn occurs while moving up the new vertex is clamped onto the
top edge, moving right onto the right edge, moving down onto the bottom
edge, moving left onto the left edge — irrespective of which bounds the
tentative vertex actually crossed, so a step that crosses two bounds is
clamped only against the edge ahead of the travel direction. -/
theorem dir_cycle_and_clamp (bt bb bl br sp : ℚ) (st : SpState) :
    (st.2 = Dir.u ∨ st.2 = Dir.r ∨ st.2 = Dir.d ∨ st.2 = Dir.l) ∧
    ((spiralStep bt bb bl br sp st).2 = st.2 ∨
      (spiralStep bt bb bl br sp st).2 = new_dir_map st.2) ∧
    (¬ turnsAt bt bb bl br sp st → (spiralStep bt bb bl br sp st).2 = st.2) ∧
    (turnsAt bt bb bl br sp st →
      (spiralStep bt bb bl br sp st).2 = new_dir_map st.2 ∧
      (st.2 = Dir.u → (spiralStep bt bb bl br sp st).1.2 = bt) ∧
      (st.2 = Dir.r → (spiralStep bt bb bl br sp st).1.1 = br) ∧
      (st.2 = Dir.d → (spiralStep bt bb bl br sp st).1.2 = bb) ∧
      (st.2 = Dir.l → (spiralStep bt bb bl br sp st).1.1 = bl)) := by
  obtain ⟨v, dir⟩ := st
  rw [spiralStep, turnsAt]
  split_ifs with hb
  · exact ⟨by cases dir <;> simp, Or.inl rfl, fun _ => rfl, fun hturn => absurd hb hturn⟩
  · refine ⟨by cases dir <;> simp, Or.inr rfl, fun hn => absurd hb hn, fun _ => ⟨rfl, ?_⟩⟩
    cases dir <;> simp [clampTurn, new_dir_map]

theorem dir_cycle_and_clamp_wit :
    turnsAt (5 : ℚ) (-5) (-5) 5 8 ((6, 3), Dir.u) ∧
    ((spiralStep (5 : ℚ) (-5) (-5) 5 8 ((6, 3), Dir.u)).2 = new_dir_map Dir.u ∧
     (Dir.u = Dir.u → (spiralStep (5 : ℚ) (-5) (-5) 5 8 ((6, 3), Dir.u)).1.2 = 5) ∧
     (Dir.u = Dir.r → (spiralStep (5 : ℚ) (-5) (-5) 5 8 ((6, 3), Dir.u)).1.1 = 5) ∧
     (Dir.u = Dir.d → (spiralStep (5 : ℚ) (-5) (-5) 5 8 ((6, 3), Dir.u)).1.2 = -5) ∧
     (Dir.u = Dir.l → (spiralStep (5 : ℚ) (-5) (-5) 5 8 ((6, 3), Dir.u)).1.1 = -5)) := by
  have ht : turnsAt (5 : ℚ) (-5) (-5) 5 8 ((6, 3), Dir.u) := by
    norm_num [turnsAt, in_bounds, tentative, dir_map]
  exact ⟨ht, (dir_cycle_and_clamp 5 (-5) (-5) 5 8 ((6, 3), Dir.u)).2.2.2 ht⟩

end Issa
